import Mathlib

set_option autoImplicit false

namespace PB

/-! Embedding of `src/utils/common_functions.py` and
`src/api_parsers/api_unsupervised_embeddings_using_augmentations.py`
from polysider/powerful-benchmarker.

YAML documents loaded by `yaml.safe_load` and written by `yaml.dump` are
modelled as ordered association lists (Python dicts preserve insertion
order); scalar values are modelled opaquely by their textual form, since
the code only compares them for equality. -/

mutual

inductive Yaml where
| scalar : String → Yaml
| dict : YDict → Yaml
deriving DecidableEq

inductive YDict where
| nil : YDict
| cons : String → Yaml → YDict → YDict
deriving DecidableEq

end

/-- Lookup of a key in a YAML mapping (Python `d[k]` / `k in d`). -/
def YDict.lookup : YDict → String → Option Yaml
| .nil, _ => none
| .cons k v rest, key => if k = key then some v else rest.lookup key

/-- Python `d[k] = v`: replace the value in place if the key is present,
otherwise append a new entry at the end (insertion order). -/
def YDict.setKey : YDict → String → Yaml → YDict
| .nil, key, val => .cons key val .nil
| .cons k v rest, key, val =>
  if k = key then .cons k val rest else .cons k v (rest.setKey key val)

/-- Keys of a mapping, in insertion order. -/
def YDict.keys : YDict → List String
| .nil => []
| .cons k _ rest => k :: rest.keys

/-- All (key, value) entries, in insertion order. -/
def YDict.entries : YDict → List (String × Yaml)
| .nil => []
| .cons k v rest => (k, v) :: rest.entries

/-- Number of entries. -/
def YDict.size : YDict → Nat
| .nil => 0
| .cons _ _ rest => rest.size + 1

mutual

/-- Python `==` on loaded YAML values: scalars compare by value, mappings
compare order-insensitively (equal size and every entry of the left is
found, with an equal value, in the right -- which for the duplicate-free
mappings produced by `yaml.safe_load` is exactly Python dict equality). -/
def Yaml.pyEq : Yaml → Yaml → Bool
| .scalar a, .scalar b => a = b
| .dict a, .dict b => a.size = b.size && YDict.pyIncl a b
| _, _ => false

/-- Every entry of the first mapping appears, with `pyEq`-equal value, in
the second. -/
def YDict.pyIncl : YDict → YDict → Bool
| .nil, _ => true
| .cons k v rest, b =>
  (match b.lookup k with
   | some w => Yaml.pyEq v w
   | none => false) && YDict.pyIncl rest b

end

mutual

/-- Modelled from the spec: the external config-merge utility
(`emag_utils.merge_two_dicts`) consumed by `save_config_files` is not part
of src/.  Per the spec it is "a generic config-merge utility (two mappings
in, merged mapping out, parameterized by max merge depth)": the new
document `y` is merged into the existing document `x`, new values win; at
depth budget 0 top-level keys are simply replaced, while an unbounded
budget (`none`, Python `float('inf')`) merges nested mappings
recursively.  A budget of `some n` allows `n` further levels of recursive
mapping-merge. -/
def merge_two_dicts (budget : Option Nat) : YDict → YDict → YDict
| x, .nil => x
| x, .cons k v rest => merge_two_dicts budget (mergeKey budget x k v) rest

/-- Merge a single key of the new document into the accumulated result:
when both sides hold a mapping and the depth budget is not exhausted,
recurse one level deeper; otherwise the new value replaces the old. -/
def mergeKey (budget : Option Nat) (x : YDict) (k : String) (v : Yaml) : YDict :=
  match v, x.lookup k with
  | .dict vd, some (.dict old) =>
    match budget with
    | none => x.setKey k (.dict (merge_two_dicts none old vd))
    | some (n+1) => x.setKey k (.dict (merge_two_dicts (some n) old vd))
    | some 0 => x.setKey k (.dict vd)
  | v, _ => x.setKey k v

end

/-! ## Path and string helpers (Python `str.split`, `os.path`) -/

/-- Python `s.split(sep)` for a single-character separator, on the
character list: keeps empty pieces, and splitting the empty string gives
one empty piece. -/
def pySplitChar (sep : Char) : List Char → List (List Char)
| [] => [[]]
| c :: rest =>
  let r := pySplitChar sep rest
  if c = sep then [] :: r
  else
    match r with
    | [] => [[c]]
    | h :: t => (c :: h) :: t

/-- Python `s.split(sep)` on strings. -/
def pySplit (sep : Char) (s : String) : List String :=
  (pySplitChar sep s.data).map String.mk

/-- The root part of Python `os.path.splitext` applied to a base name (no
directory separators): drop the last dot and what follows, unless every
character before that dot is itself a dot. -/
def splitext_root_chars (l : List Char) : List Char :=
  let r := l.reverse
  let rest := r.dropWhile (fun c => c ≠ '.')
  match rest with
  | [] => l
  | _ :: b => if b.any (fun c => c ≠ '.') then b.reverse else l

/-- `os.path.join(a, b)` for the shapes used by the source: a non-empty
folder name not ending in a separator, joined with a relative name. -/
def path_join (a b : String) : String := a ++ "/" ++ b

/-- Python `s.startswith(pre)`. -/
def pyStartsWith (s pre : String) : Bool := pre.data.isPrefixOf s.data

/-- Python `s.endswith(suf)`. -/
def pyEndsWith (s suf : String) : Bool := suf.data.isSuffixOf s.data

/-- Python `s.replace(old, new)` on character lists: replace every
non-overlapping occurrence, scanning left to right.  (The source only
calls this with a non-empty pattern; an empty pattern is returned
unchanged here.) -/
def pyReplace (pat repl : List Char) : List Char → List Char
| [] => []
| c :: rest =>
  if h : pat.isPrefixOf (c :: rest) ∧ pat ≠ [] then
    repl ++ pyReplace pat repl ((c :: rest).drop pat.length)
  else
    c :: pyReplace pat repl rest
termination_by l => l.length
decreasing_by
· simp only [List.length_drop]
  have hlen : pat.length ≤ (c :: rest).length :=
    (List.isPrefixOf_iff_prefix.mp h.1).length_le
  have hpos : 0 < pat.length := List.length_pos.mpr h.2
  omega
· simp

/-- Python `int(s)` as used on folder-name pieces: a non-empty string of
decimal digits parses to its value, anything else raises `ValueError`
(modelled as `none`). -/
def parse_nat_digits (l : List Char) : Option Nat :=
  if l.isEmpty then none
  else if l.all Char.isDigit then
    some (l.foldl (fun a c => a * 10 + (c.toNat - 48)) 0)
  else none

/-! ## File-system model

The functions under verification only touch the file system through
`glob.glob`, `os.makedirs`, `open`/`yaml.safe_load`/`yaml.dump` and
`os.remove`.  A file system is modelled as a list of directories plus a
map from file path to content, where the content of a YAML file is the
list of documents dumped into it (append-mode writes add a document,
overwrite-mode writes replace the list). -/

structure FS where
  dirs : List String
  files : List (String × List YDict)
deriving DecidableEq

/-- Content of the file at `p`, if present. -/
def FS.readFile (fs : FS) (p : String) : Option (List YDict) :=
  (fs.files.find? (fun e => e.1 = p)).map Prod.snd

/-- Replace the first entry for path `p`, or append a fresh one. -/
def updateFiles (l : List (String × List YDict)) (p : String) (c : List YDict) :
    List (String × List YDict) :=
  match l with
  | [] => [(p, c)]
  | e :: rest => if e.1 = p then (p, c) :: rest else e :: updateFiles rest p c

/-- `yaml.dump(d, f)` into the file opened at `p` with mode `'a'`
(`append = true`, creating the file when absent) or `'w'`
(`append = false`, truncating). -/
def FS.writeDoc (fs : FS) (p : String) (d : YDict) (append : Bool) : FS :=
  let prev := if append then (fs.readFile p).getD [] else []
  { fs with files := updateFiles fs.files p (prev ++ [d]) }

/-- `makedir_if_not_there` (src/utils/common_functions.py:85-90):
`os.makedirs`, with the already-exists error swallowed. -/
def FS.makedir (fs : FS) (p : String) : FS :=
  if p ∈ fs.dirs then fs else { fs with dirs := fs.dirs ++ [p] }

/-- Re-reading the concatenation of the documents dumped into one YAML
file: later dumps of the same top-level key override earlier ones
(PyYAML keeps the last duplicate key). -/
def parse_docs (docs : List YDict) : YDict :=
  docs.foldl (fun acc d => (d.entries).foldl (fun a e => a.setKey e.1 e.2) acc) .nil

/-- `load_yaml` (src/utils/common_functions.py:92-95): open the file and
`yaml.safe_load` it.  A missing file raises `FileNotFoundError`; a file
with no document loads as `None`, which every caller in the source then
crashes on, modelled as an error here. -/
def load_yaml (fs : FS) (fname : String) : Except String YDict :=
  match fs.readFile fname with
  | none => .error "FileNotFoundError"
  | some [] => .error "NoneType"
  | some (d :: rest) => .ok (parse_docs (d :: rest))

/-- All directory entries a non-recursive glob can report: directories
and files. -/
def FS.globEntries (fs : FS) : List String :=
  fs.dirs ++ fs.files.map Prod.fst

/-- One-star glob matching on character lists: `p` matches
`pre ++ "*" ++ suf` when it starts with `pre`, ends with `suf`, and the
middle crossed by `*` contains no path separator. -/
def star_match (pre suf p : List Char) : Bool :=
  pre.isPrefixOf p && suf.isSuffixOf p && decide (pre.length + suf.length ≤ p.length)
    && ((p.drop pre.length).take (p.length - pre.length - suf.length)).all
        (fun c => c ≠ '/')

/-- `glob.glob(pat)` for the patterns the source uses (no star, or exactly
one star).  Results come back in the file system's stored order; callers
that need a defined order sort them, as the source does. -/
def FS.glob1 (fs : FS) (pat : String) : List String :=
  match pySplit '*' pat with
  | [exact] => fs.globEntries.filter (fun p => p = exact)
  | [a, b] => fs.globEntries.filter (fun p => star_match a.data b.data p.data)
  | _ => []

/-! ## `save_config_files` (src/utils/common_functions.py:134-157) -/

/-- Category-name derivation (lines 138-141): `k_split = k.split('/')`;
`config_category_name = k_split[-2]` -- which raises `IndexError` when the
path has fewer than two segments -- and if that segment does not start
with `'config_'`, the base name `k_split[-1]` without its extension is
used instead. -/
def config_category_name_of (k : String) : Except String String :=
  match (pySplit '/' k).reverse with
  | base :: second :: _ =>
    .ok (if pyStartsWith second "config_" then second
         else String.mk (splitext_root_chars base.data))
  | _ => .error "IndexError: list index out of range"

/-- Lines 150-153: the diff of the new document `v` against the loaded
on-disk document `curr`, keeping (in `v`'s order, whose keys are distinct
for YAML-loaded documents) every entry whose key is absent from `curr` or
whose value differs (Python `!=`) from `curr`'s. -/
def yaml_diff_of : YDict → YDict → YDict
| .nil, _ => .nil
| .cons k2 v2 rest, curr =>
  match curr.lookup k2 with
  | none => .cons k2 v2 (yaml_diff_of rest curr)
  | some w =>
    if Yaml.pyEq v2 w then yaml_diff_of rest curr
    else .cons k2 v2 (yaml_diff_of rest curr)

/-- Line 154: `'resume_training_config_diffs_' + '_'.join(str(epoch) for
epoch in latest_epochs)`. -/
def resume_diff_dir_name (latest_epochs : List Nat) : String :=
  "resume_training_config_diffs_" ++ String.intercalate "_" (latest_epochs.map Nat.repr)

/-- The body of the `for k, v in dict_of_yamls.items()` loop of
`save_config_files` (lines 137-157), acting on one (source path, document)
pair.  (The Python `new_dir` variable is re-assigned before every use, so
it carries no state between iterations.) -/
def process_config_entry (config_folder : String)
    (resume_training reproduce_results : Bool) (latest_epochs : List Nat)
    (fs : FS) (kv : String × YDict) : Except String FS := do
  let cat ← config_category_name_of kv.1
  let fname := path_join config_folder (cat ++ ".yaml")
  if resume_training then do
    let curr ← load_yaml fs fname
    let d := yaml_diff_of kv.2 curr
    if d = .nil then
      .ok fs
    else
      let ndir := path_join config_folder (resume_diff_dir_name latest_epochs)
      .ok ((fs.makedir ndir).writeDoc (path_join ndir (cat ++ ".yaml")) d true)
  else
    match fs.readFile fname with
    | some _ => do
      let curr ← load_yaml fs fname
      .ok (fs.writeDoc fname
        (merge_two_dicts (if reproduce_results then some 0 else none) curr kv.2) false)
    | none => .ok (fs.writeDoc fname kv.2 false)

/-- `save_config_files(config_folder, dict_of_yamls, resume_training,
reproduce_results, latest_epochs)` (lines 134-157): create the config
folder if needed, then process each document in order. -/
def save_config_files (config_folder : String) (dict_of_yamls : List (String × YDict))
    (resume_training reproduce_results : Bool) (latest_epochs : List Nat)
    (fs : FS) : Except String FS :=
  dict_of_yamls.foldlM
    (process_config_entry config_folder resume_training reproduce_results latest_epochs)
    (fs.makedir config_folder)

/-! ## `latest_version` and `latest_sub_experiment_epochs`
(src/utils/common_functions.py:102-116) -/

/-- `int(x.split("_")[-1].split(".")[0])` applied to one globbed path. -/
def version_of_path (x : String) : Option Nat :=
  let seg := ((pySplit '_' x).reverse.head?).getD ""
  let lead := ((pySplit '.' seg).head?).getD ""
  parse_nat_digits lead.data

/-- `latest_version(folder, string_to_glob)` (lines 102-108): glob, return
`None` on no match at all, otherwise drop paths ending in `"best.pth"`,
parse the trailing integer of each survivor and take the maximum --
raising `ValueError` when a survivor fails to parse or when no survivor
is left (`max([])`). -/
def latest_version (fs : FS) (folder string_to_glob : String) :
    Except String (Option Nat) :=
  let items := fs.glob1 (path_join folder string_to_glob)
  if items = [] then .ok none
  else
    let kept := items.filter (fun x => !(pyEndsWith x "best.pth"))
    match kept.mapM version_of_path with
    | none => .error "ValueError: invalid literal for int()"
    | some vs =>
      match vs.max? with
      | none => .error "ValueError: max() arg is an empty sequence"
      | some m => .ok (some m)

/-- The body of the `for sub_experiment_name, folders in ...` loop of
`latest_sub_experiment_epochs` (lines 113-115): `folders[0]` (raising
`IndexError` on an empty list), then `latest_version(model_folder,
"trunk_*.pth") or 0` -- Python `or` turns `None` into 0. -/
def latest_epoch_entry (fs : FS) (e : String × List String) :
    Except String (String × Nat) :=
  match e.2.head? with
  | none => .error "IndexError: list index out of range"
  | some model_folder => do
    let v ← latest_version fs model_folder "trunk_*.pth"
    .ok (e.1, v.getD 0)

/-- `latest_sub_experiment_epochs(sub_experiment_dir_dict)` (lines
111-116). -/
def latest_sub_experiment_epochs (fs : FS)
    (sub_experiment_dir_dict : List (String × List String)) :
    Except String (List (String × Nat)) :=
  sub_experiment_dir_dict.mapM (latest_epoch_entry fs)

/-! ## `get_all_resume_training_config_diffs`
(src/utils/common_functions.py:119-131) -/

/-- Python `d[k] = v` on a generic association list: replace in place or
append. -/
def assocSet {β : Type} (l : List (String × β)) (k : String) (v : β) :
    List (String × β) :=
  match l with
  | [] => [(k, v)]
  | e :: rest => if e.1 = k then (k, v) :: rest else e :: assocSet rest k v

/-- Lookup in a generic association list (first match). -/
def assocGet {β : Type} (l : List (String × β)) (k : String) : Option β :=
  (l.find? (fun e => e.1 = k)).map Prod.snd

/-- Insertion sort of strings under the lexicographic order, modelling
Python `sorted` on the globbed paths. -/
def insertSorted (x : String) : List String → List String
| [] => [x]
| y :: rest => if x < y then x :: y :: rest else y :: insertSorted x rest

/-- Python `sorted` on a list of strings. -/
def sortStrings (l : List String) : List String :=
  l.foldr insertSorted []

/-- Line 122: `"%s%d" % (split_scheme, i)` over
`itertools.product(split_scheme_name, range(num_training_sets))`, in
product order (the prefix varies slowest). -/
def product_scheme_names (split_scheme_name : List String)
    (num_training_sets : Nat) : List String :=
  (split_scheme_name.map (fun p =>
    (List.range num_training_sets).map (fun i => p ++ Nat.repr i))).flatten

/-- Lines 121-124: the sub-experiment names the parsed integers are zipped
with.  The Python argument is dynamically typed: with more than one
training set the caller supplies the list of name prefixes, with exactly
one it supplies the single name, which `[split_scheme_name]` wraps into a
one-element list -- modelled here as the one-element list itself. -/
def split_scheme_names_of (split_scheme_name : List String)
    (num_training_sets : Nat) : List String :=
  if num_training_sets > 1 then
    product_scheme_names split_scheme_name num_training_sets
  else split_scheme_name

/-- Line 128: `{split_scheme: epoch for (split_scheme, epoch) in
zip(split_scheme_names, latest_epochs)}`. -/
def buildZipDict (names : List String) (eps : List Nat) : List (String × Nat) :=
  (names.zip eps).foldl (fun acc e => assocSet acc e.1 e.2) []

/-- The body of the `for k in config_diffs` loop (lines 126-128): strip
every occurrence of the base path from the folder path, split the rest on
`'_'`, parse each piece with `int` (raising `ValueError` on failure) and
zip the result with the sub-experiment names. -/
def parse_diff_folder (full_base_path : String) (names : List String)
    (k : String) : Except String (String × List (String × Nat)) :=
  let tail_str := String.mk (pyReplace full_base_path.data [] k.data)
  match (pySplit '_' tail_str).mapM (fun s => parse_nat_digits s.data) with
  | none => .error "ValueError: invalid literal for int()"
  | some latest_epochs => .ok (k, buildZipDict names latest_epochs)

/-- `get_all_resume_training_config_diffs(config_folder,
split_scheme_name, num_training_sets)` (lines 119-131). -/
def get_all_resume_training_config_diffs (fs : FS) (config_folder : String)
    (split_scheme_name : List String) (num_training_sets : Nat) :
    Except String (List (String × List (String × Nat))) :=
  let full_base_path := path_join config_folder "resume_training_config_diffs_"
  let config_diffs := sortStrings (fs.glob1 (full_base_path ++ "*"))
  config_diffs.mapM
    (parse_diff_folder full_base_path
      (split_scheme_names_of split_scheme_name num_training_sets))

/-! ## Checkpoint store (src/utils/common_functions.py:16-73) -/

/-- A named stateful object as the checkpoint helpers see it: the only
feature `operate_on_dict_of_models` inspects is its (possibly empty)
enumerable parameter list, modelled by opaque handles. -/
structure PyModule where
  parameters : List String
deriving DecidableEq

/-- `experiment_filename(folder, basename, identifier, extension=".pth")`
(lines 16-20): `identifier=None` omits the identifier segment. -/
def experiment_filename (folder basename : String) (identifier : Option String)
    (extension : String := ".pth") : String :=
  match identifier with
  | none => path_join folder (basename ++ extension)
  | some i => path_join folder (basename ++ "_" ++ i ++ extension)

/-- Python substring containment `pat in s`, on character lists. -/
def infixOf (pat : List Char) : List Char → Bool
| [] => pat.isEmpty
| c :: rest => pat.isPrefixOf (c :: rest) || infixOf pat rest

/-- Line 49: `"optimizer" in k or len([i for i in v.parameters()]) > 0`. -/
def operable (k : String) (v : PyModule) : Bool :=
  infixOf "optimizer".data k.data || decide (v.parameters.length > 0)

/-- `operate_on_dict_of_models(input_dict, suffix, folder, operation,
logging_string)` (lines 47-54): the ordered list of
(name, object, model_path) triples the supplied `operation` closure is
invoked on. -/
def operate_on_dict_of_models (input_dict : List (String × PyModule))
    (suffix : Option String) (folder : String) :
    List (String × PyModule × String) :=
  match input_dict with
  | [] => []
  | (k, v) :: rest =>
    if operable k v then
      (k, v, experiment_filename folder k suffix) ::
        operate_on_dict_of_models rest suffix folder
    else operate_on_dict_of_models rest suffix folder

/-- One invocation of the per-entry operation of `save_dict_of_models`,
`load_dict_of_models` or `delete_dict_of_models` (lines 56-73). -/
inductive CkptAction where
| saveA : String → PyModule → String → CkptAction
| loadA : String → PyModule → String → String → CkptAction
| deleteA : String → CkptAction
deriving DecidableEq

/-- `save_dict_of_models(input_dict, suffix, folder)` (lines 56-59) as its
trace of per-entry save operations. -/
def save_dict_of_models (input_dict : List (String × PyModule))
    (suffix : Option String) (folder : String) : List CkptAction :=
  (operate_on_dict_of_models input_dict suffix folder).map
    (fun e => .saveA e.1 e.2.1 e.2.2)

/-- `load_dict_of_models(input_dict, suffix, folder, device)` (lines
61-64) as its trace of per-entry load operations. -/
def load_dict_of_models (input_dict : List (String × PyModule))
    (suffix : Option String) (folder device : String) : List CkptAction :=
  (operate_on_dict_of_models input_dict suffix folder).map
    (fun e => .loadA e.1 e.2.1 e.2.2 device)

/-- `delete_dict_of_models(input_dict, suffix, folder)` (lines 66-73) as
its trace of per-entry `os.remove` attempts. -/
def delete_dict_of_models (input_dict : List (String × PyModule))
    (suffix : Option String) (folder : String) : List CkptAction :=
  (operate_on_dict_of_models input_dict suffix folder).map
    (fun e => .deleteA e.2.2)

/-! ## `load_model` and `save_model_or_optimizer`
(src/utils/common_functions.py:23-44)

The serialized parameter state of a model is a mapping from key to an
opaque tensor handle. -/

/-- A serialized state mapping, as stored by `torch.save`. -/
def StateDict : Type := List (String × String)

instance : DecidableEq StateDict := by
  unfold StateDict
  infer_instance

/-- `name = k[7:]` applied to every key (lines 32-35): drop the first
seven characters -- the length of the `"module."` wrapper artifact --
from every state key, unconditionally. -/
def strip_module_pre (sd : StateDict) : StateDict :=
  sd.map (fun e => (e.1.drop 7, e.2))

/-- `load_model(model_def, model_filename, device)` (lines 23-37).  The
stored file content is `stored`; whether `model_def.load_state_dict`
accepts a given state dict is abstracted by the predicate `installs`.
The first attempt installs the loaded state directly; on any exception
the state is re-loaded and re-tried with every key's first seven
characters stripped; a failure of that second attempt propagates.  The
result is the state dict finally installed. -/
def load_model (installs : StateDict → Bool) (stored : StateDict) :
    Except String StateDict :=
  if installs stored then .ok stored
  else if installs (strip_module_pre stored) then .ok (strip_module_pre stored)
  else .error "load_state_dict failed"

/-- `save_model_or_optimizer(model, model_name, filepath)` (lines 40-44).
`cpu_attempt` abstracts `torch.save(model.cpu().state_dict(), filepath)`
-- producing the serialized host-memory state or failing -- and
`plain_attempt` abstracts the fallback `torch.save(model.state_dict(),
filepath)`.  Any failure of the first attempt falls through to the
second; a failure of the second propagates.  The result is the state
dict finally serialized to `filepath`. -/
def save_model_or_optimizer (cpu_attempt plain_attempt : Except String StateDict) :
    Except String StateDict :=
  match cpu_attempt with
  | .ok s => .ok s
  | .error _ => plain_attempt

/-! ## `APIUnsupervisedEmbeddingsUsingAugmentations.get_trainer_kwargs`
(src/api_parsers/api_unsupervised_embeddings_using_augmentations.py:4-10) -/

/-- A trainer keyword-argument value: the three keys this class
overrides take a transform list, `None` and a boolean; every other value
is opaque. -/
inductive KwVal (T : Type) where
| pyNone : KwVal T
| pyBool : Bool → KwVal T
| transformList : List T → KwVal T
| other : String → KwVal T
deriving DecidableEq

/-- Modelled from the spec: `super().get_trainer_kwargs()` (the base
builder's default keyword-argument mapping) and `self.get_transforms()`
(the mapping of named transform pipelines) live in `BaseAPIParser`, which
is repository code not included under src/; per the spec they are "a base
trainer-kwargs builder exposing a default keyword-argument mapping and a
transform-mapping accessor", so both are taken as opaque inputs here.
`get_trainer_kwargs` then sets `transforms` to the values of the
transform keys starting with `"augmentation"` (in mapping iteration
order), forces `sampler` to `None` and `set_min_label_to_zero` to
`False`. -/
def get_trainer_kwargs {T : Type} (base_trainer_kwargs : List (String × KwVal T))
    (transforms : List (String × T)) : List (String × KwVal T) :=
  let tk1 := assocSet base_trainer_kwargs "transforms"
    (.transformList ((transforms.filter (fun e => pyStartsWith e.1 "augmentation")).map Prod.snd))
  let tk2 := assocSet tk1 "sampler" .pyNone
  assocSet tk2 "set_min_label_to_zero" (.pyBool false)

/-! ## Lemmas about YAML mappings and the diff -/

theorem lookup_eq_none_iff_not_mem_keys : ∀ (d : YDict) (key : String),
    d.lookup key = none ↔ key ∉ d.keys
| .nil, key => by simp [YDict.lookup, YDict.keys]
| .cons k v rest, key => by
  by_cases hk : k = key
  · subst hk
    simp [YDict.lookup, YDict.keys]
  · simp only [YDict.lookup, if_neg hk, YDict.keys, List.mem_cons]
    rw [lookup_eq_none_iff_not_mem_keys rest key]
    constructor
    · rintro h (he | hm)
      · exact hk he.symm
      · exact h hm
    · intro h hm
      exact h (Or.inr hm)

theorem yaml_diff_lookup_of_none : ∀ (v curr : YDict) (key : String),
    v.lookup key = none → (yaml_diff_of v curr).lookup key = none
| .nil, _, _, _ => rfl
| .cons k2 v2 rest, curr, key, h => by
  have hk : ¬ (k2 = key) := by
    intro he
    simp [YDict.lookup, he] at h
  have hr : rest.lookup key = none := by
    simpa [YDict.lookup, hk] using h
  have ih := yaml_diff_lookup_of_none rest curr key hr
  cases hc : curr.lookup k2 with
  | none => simpa [yaml_diff_of, hc, YDict.lookup, hk] using ih
  | some w =>
    by_cases hp : Yaml.pyEq v2 w <;>
      simp [yaml_diff_of, hc, hp, YDict.lookup, hk, ih]

/-- The diff of `v` against `curr` holds exactly the entries of `v` whose
key is absent from `curr` or whose value differs from `curr`'s. -/
theorem yaml_diff_of_lookup : ∀ (v curr : YDict), v.keys.Nodup →
    ∀ (key : String) (v2 : Yaml), (yaml_diff_of v curr).lookup key = some v2 ↔
      (v.lookup key = some v2 ∧
        (curr.lookup key = none ∨
          ∃ w, curr.lookup key = some w ∧ Yaml.pyEq v2 w = false))
| .nil, curr, _, key, v2 => by simp [yaml_diff_of, YDict.lookup]
| .cons k2 vv rest, curr, hnd, key, v2 => by
  have hnotmem : k2 ∉ rest.keys := by
    have := List.nodup_cons.mp (by simpa [YDict.keys] using hnd)
    exact this.1
  have hndrest : rest.keys.Nodup := by
    have := List.nodup_cons.mp (by simpa [YDict.keys] using hnd)
    exact this.2
  have ih := yaml_diff_of_lookup rest curr hndrest key v2
  by_cases hk : k2 = key
  · subst hk
    have hrest_none : rest.lookup k2 = none :=
      (lookup_eq_none_iff_not_mem_keys rest k2).mpr hnotmem
    have hdiff_none : (yaml_diff_of rest curr).lookup k2 = none :=
      yaml_diff_lookup_of_none rest curr k2 hrest_none
    cases hc : curr.lookup k2 with
    | none =>
      simp [yaml_diff_of, hc, YDict.lookup]
    | some w =>
      by_cases hp : Yaml.pyEq vv w
      · have hgoal : yaml_diff_of (YDict.cons k2 vv rest) curr =
            yaml_diff_of rest curr := by
          simp [yaml_diff_of, hc, hp]
        rw [hgoal, hdiff_none]
        simp only [YDict.lookup, eq_self_iff_true, if_true, hc, Option.some.injEq]
        constructor
        · intro h
          cases h
        · rintro ⟨rfl, hnone | ⟨w2, rfl, hpe⟩⟩
          · cases hnone
          · rw [hp] at hpe
            cases hpe
      · have hgoal : yaml_diff_of (YDict.cons k2 vv rest) curr =
            YDict.cons k2 vv (yaml_diff_of rest curr) := by
          simp [yaml_diff_of, hc, hp]
        rw [hgoal]
        simp only [YDict.lookup, eq_self_iff_true, if_true, hc, Option.some.injEq]
        constructor
        · rintro rfl
          exact ⟨rfl, Or.inr ⟨w, rfl, by simpa using hp⟩⟩
        · rintro ⟨rfl, _⟩
          rfl
  · have hvl : (YDict.cons k2 vv rest).lookup key = rest.lookup key := by
      simp [YDict.lookup, hk]
    cases hc : curr.lookup k2 with
    | none =>
      simpa [yaml_diff_of, hc, YDict.lookup, hk, hvl] using ih
    | some w =>
      by_cases hp : Yaml.pyEq vv w <;>
        simpa [yaml_diff_of, hc, hp, YDict.lookup, hk, hvl] using ih

/-! ## Claim C1: the resume/diff branch of `save_config_files` -/

theorem except_bind_ok {α β : Type} (a : α) (f : α → Except String β) :
    (Except.ok a >>= f) = f a := rfl

/-- C1: with `resume_training=True`, for each config document (whose keys
are distinct, as YAML-loaded mappings are), relative to the loaded
on-disk category document: the diff holds exactly the top-level entries
absent from or different in the on-disk document; an empty diff writes
nothing; a non-empty diff creates `resume_training_config_diffs_<epochs
underscore-joined in caller order>` and append-writes the diff to
`<category>.yaml` inside it.  The first conjunct records that
`save_config_files` is exactly the fold of this per-document step after
creating the config folder. -/
theorem resume_diff_per_document (cf : String) (rr : Bool) (eps : List Nat)
    (fs : FS) (k : String) (v curr : YDict) (cat : String)
    (hnd : v.keys.Nodup)
    (hcat : config_category_name_of k = .ok cat)
    (hload : load_yaml fs (path_join cf (cat ++ ".yaml")) = .ok curr) :
    (∀ (dict : List (String × YDict)) (rt rp : Bool) (le : List Nat) (fs0 : FS),
      save_config_files cf dict rt rp le fs0 =
        dict.foldlM (process_config_entry cf rt rp le) (fs0.makedir cf)) ∧
    (∀ (key : String) (v2 : Yaml),
      (yaml_diff_of v curr).lookup key = some v2 ↔
        (v.lookup key = some v2 ∧
          (curr.lookup key = none ∨
            ∃ w, curr.lookup key = some w ∧ Yaml.pyEq v2 w = false))) ∧
    (yaml_diff_of v curr = .nil →
      process_config_entry cf true rr eps fs (k, v) = .ok fs) ∧
    (yaml_diff_of v curr ≠ .nil →
      process_config_entry cf true rr eps fs (k, v) =
        .ok ((fs.makedir (path_join cf (resume_diff_dir_name eps))).writeDoc
          (path_join (path_join cf (resume_diff_dir_name eps)) (cat ++ ".yaml"))
          (yaml_diff_of v curr) true)) := by
  refine ⟨fun _ _ _ _ _ => rfl, yaml_diff_of_lookup v curr hnd,
    fun hnil => ?_, fun hne => ?_⟩
  · simp [process_config_entry, hcat, hload, hnil, except_bind_ok]
  · simp [process_config_entry, hcat, hload, hne, except_bind_ok]

theorem resume_diff_per_document_witness :
    process_config_entry "cfg" true false [5, 5]
      ⟨[], [("cfg/general.yaml",
        [.cons "lr" (.scalar "0.1") (.cons "epochs" (.scalar "10") .nil)])]⟩
      ("x/general.yaml",
        .cons "lr" (.scalar "0.01") (.cons "epochs" (.scalar "10") .nil)) =
    .ok ⟨["cfg/resume_training_config_diffs_5_5"],
      [("cfg/general.yaml",
        [.cons "lr" (.scalar "0.1") (.cons "epochs" (.scalar "10") .nil)]),
       ("cfg/resume_training_config_diffs_5_5/general.yaml",
        [.cons "lr" (.scalar "0.01") .nil])]⟩ := by
  have h := (resume_diff_per_document "cfg" false [5, 5]
    ⟨[], [("cfg/general.yaml",
      [.cons "lr" (.scalar "0.1") (.cons "epochs" (.scalar "10") .nil)])]⟩
    "x/general.yaml"
    (.cons "lr" (.scalar "0.01") (.cons "epochs" (.scalar "10") .nil))
    (.cons "lr" (.scalar "0.1") (.cons "epochs" (.scalar "10") .nil))
    "general" (by decide) rfl rfl).2.2.2 (by decide)
  exact h.trans (congrArg Except.ok (by decide))

/-! ## Claim C3: the fresh/merge branch of `save_config_files` -/

/-- C3: with `resume_training=False`, a document whose category file does
not yet exist is written as-is; one whose category file exists is merged
into the loaded document -- top-level only (depth 0) when
`reproduce_results` is set, recursively (unbounded depth) otherwise --
and the merge result fully overwrites the category file.  The last two
conjuncts check the spec's merge example at both depths (up to Python
dict equality, which ignores key order). -/
theorem fresh_merge_per_document (cf : String) (rr : Bool) (eps : List Nat)
    (fs : FS) (k : String) (v curr : YDict) (cat : String)
    (hcat : config_category_name_of k = .ok cat) :
    (fs.readFile (path_join cf (cat ++ ".yaml")) = none →
      process_config_entry cf false rr eps fs (k, v) =
        .ok (fs.writeDoc (path_join cf (cat ++ ".yaml")) v false)) ∧
    (load_yaml fs (path_join cf (cat ++ ".yaml")) = .ok curr →
      process_config_entry cf false rr eps fs (k, v) =
        .ok (fs.writeDoc (path_join cf (cat ++ ".yaml"))
          (merge_two_dicts (if rr then some 0 else none) curr v) false)) ∧
    Yaml.pyEq
      (.dict (merge_two_dicts none
        (.cons "b" (.dict (.cons "c" (.scalar "1") (.cons "d" (.scalar "3") .nil))) .nil)
        (.cons "a" (.scalar "1") (.cons "b" (.dict (.cons "c" (.scalar "2") .nil)) .nil))))
      (.dict (.cons "a" (.scalar "1")
        (.cons "b" (.dict (.cons "c" (.scalar "2") (.cons "d" (.scalar "3") .nil))) .nil)))
      = true ∧
    Yaml.pyEq
      (.dict (merge_two_dicts (some 0)
        (.cons "b" (.dict (.cons "c" (.scalar "1") (.cons "d" (.scalar "3") .nil))) .nil)
        (.cons "a" (.scalar "1") (.cons "b" (.dict (.cons "c" (.scalar "2") .nil)) .nil))))
      (.dict (.cons "a" (.scalar "1")
        (.cons "b" (.dict (.cons "c" (.scalar "2") .nil)) .nil)))
      = true := by
  refine ⟨fun hnone => ?_, fun hload => ?_, by decide, by decide⟩
  · simp [process_config_entry, hcat, except_bind_ok, hnone]
  · cases hread : fs.readFile (path_join cf (cat ++ ".yaml")) with
    | none =>
      rw [load_yaml, hread] at hload
      cases hload
    | some docs =>
      cases docs with
      | nil =>
        rw [load_yaml, hread] at hload
        cases hload
      | cons d rest =>
        simp [process_config_entry, hcat, except_bind_ok, hread, hload]

theorem fresh_merge_per_document_witness :
    process_config_entry "cfg" false true []
      ⟨["cfg"], [("cfg/general.yaml", [.cons "lr" (.scalar "0.1") .nil])]⟩
      ("x/general.yaml", .cons "lr" (.scalar "0.01") .nil) =
    .ok ⟨["cfg"], [("cfg/general.yaml", [.cons "lr" (.scalar "0.01") .nil])]⟩ := by
  have h := (fresh_merge_per_document "cfg" true []
    ⟨["cfg"], [("cfg/general.yaml", [.cons "lr" (.scalar "0.1") .nil])]⟩
    "x/general.yaml" (.cons "lr" (.scalar "0.01") .nil)
    (.cons "lr" (.scalar "0.1") .nil) "general" rfl).2.1 rfl
  exact h.trans (congrArg Except.ok (by decide))

/-! ## Claim C5: category-name derivation -/

/-- C5 (amended): for every document source path with at least two
'/'-separated segments, the category name is the second-to-last segment
when that segment starts with `config_` and otherwise the base name
without its extension, and a fresh-run document with no prior category
file is persisted to `<config_folder>/<category>.yaml`.  (On a
single-segment path the source raises `IndexError` instead -- see the
counterexample.) -/
theorem category_name_derivation (k base second : String) (rest : List String)
    (hsplit : (pySplit '/' k).reverse = base :: second :: rest) :
    config_category_name_of k =
      .ok (if pyStartsWith second "config_" then second
           else String.mk (splitext_root_chars base.data)) ∧
    ∀ (cf : String) (rr : Bool) (eps : List Nat) (fs : FS) (v : YDict) (cat : String),
      config_category_name_of k = .ok cat →
      fs.readFile (path_join cf (cat ++ ".yaml")) = none →
      process_config_entry cf false rr eps fs (k, v) =
        .ok (fs.writeDoc (path_join cf (cat ++ ".yaml")) v false) := by
  constructor
  · rw [config_category_name_of, hsplit]
  · intro cf rr eps fs v cat hcat hnone
    simp [process_config_entry, hcat, except_bind_ok, hnone]

theorem category_name_derivation_witness :
    config_category_name_of "configs/config_general/default.yaml" =
        .ok "config_general" ∧
      process_config_entry "cfg" false false [] ⟨["cfg"], []⟩
        ("a/general.yaml", .cons "lr" (.scalar "0.1") .nil) =
        .ok ⟨["cfg"], [("cfg/general.yaml", [.cons "lr" (.scalar "0.1") .nil])]⟩ := by
  constructor
  · exact ((category_name_derivation "configs/config_general/default.yaml"
      "default.yaml" "config_general" ["configs"] rfl).1).trans
      (congrArg Except.ok (by decide))
  · have h := (category_name_derivation "a/general.yaml" "general.yaml" "a" []
      rfl).2 "cfg" false [] ⟨["cfg"], []⟩ (.cons "lr" (.scalar "0.1") .nil)
      "general" rfl rfl
    exact h.trans (congrArg Except.ok (by decide))

/-- C5 counterexample: on the single-segment path `"general.yaml"` the
claim, as stated, would derive category `"general"` and persist the
document to `cfg/general.yaml`; the source instead evaluates
`k.split('/')[-2]` first and raises `IndexError`, so `save_config_files`
fails and persists nothing. -/
theorem category_name_single_segment_counterexample :
    config_category_name_of "general.yaml" =
        .error "IndexError: list index out of range" ∧
      save_config_files "cfg" [("general.yaml", .cons "lr" (.scalar "0.1") .nil)]
        false false [] ⟨[], []⟩ =
        .error "IndexError: list index out of range" ∧
      ∀ fs' : FS,
        save_config_files "cfg" [("general.yaml", .cons "lr" (.scalar "0.1") .nil)]
          false false [] ⟨[], []⟩ ≠ .ok fs' := by
  refine ⟨rfl, rfl, ?_⟩
  intro fs' h
  exact Except.noConfusion h

/-! ## Claim C4: `latest_version` / `latest_sub_experiment_epochs` -/

/-- C4: `latest_version` globs `trunk_*.pth`, excludes files ending in
"best", parses the trailing integer of each survivor and returns the
maximum; no match at all yields `None`, which `latest_sub_experiment_epochs`
turns into epoch 0.  The `Forall₂` conjunct ties every sub-experiment's
entry to `latest_version` of its first folder; the last conjunct checks
the spec's example (`trunk_3.pth`, `trunk_7.pth`, `trunk_best.pth` gives
7). -/
theorem except_bind_error {α β : Type} (e : String) (f : α → Except String β) :
    ((Except.error e : Except String α) >>= f) = Except.error e := rfl

theorem latest_epoch_entry_of_head (fs : FS) (e : String × List String)
    (f0 : String) (h : e.2.head? = some f0) :
    latest_epoch_entry fs e =
      match latest_version fs f0 "trunk_*.pth" with
      | .ok v => .ok (e.1, v.getD 0)
      | .error err => .error err := by
  have h1 : latest_epoch_entry fs e =
      (latest_version fs f0 "trunk_*.pth" >>= fun v => Except.ok (e.1, v.getD 0)) := by
    rw [latest_epoch_entry, h]
  rw [h1]
  cases latest_version fs f0 "trunk_*.pth" <;> rfl

theorem latest_epoch_scan (fs : FS) :
    (∀ folder : String, fs.glob1 (path_join folder "trunk_*.pth") = [] →
      latest_version fs folder "trunk_*.pth" = .ok none) ∧
    (∀ (folder : String) (vs : List Nat) (m : Nat),
      fs.glob1 (path_join folder "trunk_*.pth") ≠ [] →
      ((fs.glob1 (path_join folder "trunk_*.pth")).filter
        (fun x => !(pyEndsWith x "best.pth"))).mapM version_of_path = some vs →
      vs.max? = some m →
      (latest_version fs folder "trunk_*.pth" = .ok (some m) ∧
        m ∈ vs ∧ ∀ x ∈ vs, x ≤ m)) ∧
    (∀ (dict : List (String × List String)) (out : List (String × Nat)),
      latest_sub_experiment_epochs fs dict = .ok out →
      List.Forall₂ (fun (e : String × List String) (o : String × Nat) =>
        ∃ f0 fr r, e.2 = f0 :: fr ∧
          latest_version fs f0 "trunk_*.pth" = .ok r ∧
          o = (e.1, r.getD 0)) dict out) ∧
    (∀ (name folder : String) (fr : List String),
      fs.glob1 (path_join folder "trunk_*.pth") = [] →
      latest_sub_experiment_epochs fs [(name, folder :: fr)] =
        .ok [(name, 0)]) ∧
    latest_version
      ⟨[], [("m/trunk_3.pth", []), ("m/trunk_7.pth", []), ("m/trunk_best.pth", [])]⟩
      "m" "trunk_*.pth" = .ok (some 7) := by
  have hempty : ∀ folder : String, fs.glob1 (path_join folder "trunk_*.pth") = [] →
      latest_version fs folder "trunk_*.pth" = .ok none := by
    intro folder h
    simp [latest_version, h]
  refine ⟨hempty, fun folder vs m hne hmap hmax => ?_, fun dict => ?_,
    fun name folder fr h => ?_, rfl⟩
  · have hrest := (List.max?_eq_some_iff (by simp) (by simp [le_total])
      (by simp [Nat.max_le])).mp hmax
    refine ⟨?_, hrest.1, hrest.2⟩
    rw [latest_version, if_neg hne]
    simp only [hmap, hmax]
  · induction dict with
    | nil =>
      intro out h
      rw [latest_sub_experiment_epochs, List.mapM_nil] at h
      obtain rfl : ([] : List (String × Nat)) = out := by
        injection h
      exact List.Forall₂.nil
    | cons e rest ih =>
      intro out h
      rw [latest_sub_experiment_epochs, List.mapM_cons] at h
      cases hhead : e.2.head? with
      | none =>
        rw [latest_epoch_entry, hhead, except_bind_error] at h
        cases h
      | some f0 =>
        cases hlv : latest_version fs f0 "trunk_*.pth" with
        | error err =>
          rw [latest_epoch_entry_of_head fs e f0 hhead, hlv, except_bind_error] at h
          cases h
        | ok r =>
          rw [latest_epoch_entry_of_head fs e f0 hhead, hlv, except_bind_ok] at h
          cases hrest : rest.mapM (latest_epoch_entry fs) with
          | error err =>
            rw [hrest, except_bind_error] at h
            cases h
          | ok outr =>
            rw [hrest, except_bind_ok] at h
            obtain rfl : (e.1, r.getD 0) :: outr = out := by
              injection h
            obtain ⟨fr, hfr⟩ : ∃ fr, e.2 = f0 :: fr := by
              cases hsnd : e.2 with
              | nil => rw [hsnd] at hhead; cases hhead
              | cons a as =>
                rw [hsnd] at hhead
                obtain rfl : a = f0 := by injection hhead
                exact ⟨as, rfl⟩
            exact List.Forall₂.cons ⟨f0, fr, r, hfr, hlv, rfl⟩
              (ih outr (by rw [latest_sub_experiment_epochs, hrest]))
  · have h0 := hempty folder h
    rw [latest_sub_experiment_epochs, List.mapM_cons,
      latest_epoch_entry_of_head fs (name, folder :: fr) folder rfl, h0,
      except_bind_ok, List.mapM_nil]
    rfl

theorem latest_epoch_scan_witness :
    latest_sub_experiment_epochs ⟨[], [("m/other.txt", [])]⟩
      [("train0", ["m"])] = .ok [("train0", 0)] :=
  (latest_epoch_scan ⟨[], [("m/other.txt", [])]⟩).2.2.2.1 "train0" "m" []
    (by decide)

/-! ## Claim C10: a resume run never touches the category files -/

theorem find?_updateFiles_ne (l : List (String × List YDict)) (p q : String)
    (c : List YDict) (h : p ≠ q) :
    ((updateFiles l q c).find? (fun e => e.1 = p)) = l.find? (fun e => e.1 = p) := by
  induction l with
  | nil => simp [updateFiles, List.find?, Ne.symm h]
  | cons e rest ih =>
    by_cases he : e.1 = q
    · rw [updateFiles, if_pos he]
      simp [List.find?, Ne.symm h, he]
    · rw [updateFiles, if_neg he]
      by_cases hp : e.1 = p
      · simp [List.find?, hp]
      · simpa [List.find?, hp] using ih

theorem readFile_writeDoc_ne (fs : FS) (p q : String) (d : YDict) (a : Bool)
    (h : p ≠ q) : (fs.writeDoc q d a).readFile p = fs.readFile p := by
  rw [FS.readFile, FS.readFile]
  exact congrArg (Option.map Prod.snd) (find?_updateFiles_ne fs.files p q _ h)

theorem readFile_makedir (fs : FS) (p q : String) :
    (fs.makedir q).readFile p = fs.readFile p := by
  rw [FS.makedir]
  split <;> rfl

/-- Any file changed by one resume-branch step lies strictly below the
config folder (its relative path contains a separator), because the only
write targets `<config_folder>/resume_training_config_diffs_<...>/<cat>.yaml`. -/
theorem resume_step_frame (cf : String) (rr : Bool) (eps : List Nat)
    (fs fs' : FS) (kv : String × YDict)
    (h : process_config_entry cf true rr eps fs kv = .ok fs') :
    ∀ p : String, fs'.readFile p ≠ fs.readFile p →
      ∃ X : String, p = path_join cf X ∧ '/' ∈ X.data := by
  intro p hchanged
  cases hcat : config_category_name_of kv.1 with
  | error err =>
    rw [process_config_entry, hcat, except_bind_error] at h
    cases h
  | ok cat =>
    rw [process_config_entry, hcat, except_bind_ok] at h
    simp only [if_pos rfl] at h
    cases hload : load_yaml fs (path_join cf (cat ++ ".yaml")) with
    | error err =>
      rw [hload, except_bind_error] at h
      cases h
    | ok curr =>
      rw [hload, except_bind_ok] at h
      by_cases hnil : yaml_diff_of kv.2 curr = YDict.nil
      · rw [if_pos hnil] at h
        obtain rfl : fs = fs' := by injection h
        exact absurd rfl hchanged
      · rw [if_neg hnil] at h
        obtain rfl : ((fs.makedir (path_join cf (resume_diff_dir_name eps))).writeDoc
            (path_join (path_join cf (resume_diff_dir_name eps)) (cat ++ ".yaml"))
            (yaml_diff_of kv.2 curr) true) = fs' := by
          injection h
        by_cases hp : p = path_join (path_join cf (resume_diff_dir_name eps))
            (cat ++ ".yaml")
        · refine ⟨resume_diff_dir_name eps ++ "/" ++ (cat ++ ".yaml"), ?_, ?_⟩
          · rw [hp]
            simp [path_join, String.append_assoc]
          · simp only [String.data_append]
            refine List.mem_append.mpr (Or.inl (List.mem_append.mpr (Or.inr ?_)))
            decide
        · rw [readFile_writeDoc_ne _ _ _ _ _ hp, readFile_makedir] at hchanged
          exact absurd rfl hchanged

/-- C10: with `resume_training=True`, a successful `save_config_files`
run leaves every file directly inside the config folder -- in particular
every on-disk category document `<config_folder>/<c>.yaml` -- unchanged:
all writes land inside the resume-diff subdirectory. -/
theorem resume_run_preserves_category_files (cf : String) (rr : Bool)
    (eps : List Nat) (dict : List (String × YDict)) (fs fs' : FS)
    (h : save_config_files cf dict true rr eps fs = .ok fs') :
    ∀ c : String, (∀ ch ∈ c.data, ch ≠ '/') →
      fs'.readFile (path_join cf (c ++ ".yaml")) =
        fs.readFile (path_join cf (c ++ ".yaml")) := by
  have hfold : ∀ (d : List (String × YDict)) (fs0 fs1 : FS),
      d.foldlM (process_config_entry cf true rr eps) fs0 = .ok fs1 →
      ∀ p : String, fs1.readFile p ≠ fs0.readFile p →
        ∃ X : String, p = path_join cf X ∧ '/' ∈ X.data := by
    intro d
    induction d with
    | nil =>
      intro fs0 fs1 hf p hc
      obtain rfl : fs0 = fs1 := by
        rw [List.foldlM_nil] at hf
        injection hf
      exact absurd rfl hc
    | cons kv rest ih =>
      intro fs0 fs1 hf p hc
      rw [List.foldlM_cons] at hf
      cases hstep : process_config_entry cf true rr eps fs0 kv with
      | error err =>
        rw [hstep, except_bind_error] at hf
        cases hf
      | ok fsmid =>
        rw [hstep, except_bind_ok] at hf
        by_cases hmid : fsmid.readFile p = fs0.readFile p
        · exact ih fsmid fs1 hf p (fun he => hc (he.trans hmid))
        · exact resume_step_frame cf rr eps fs0 fsmid kv hstep p hmid
  intro c hc
  rw [save_config_files] at h
  by_cases hch : fs'.readFile (path_join cf (c ++ ".yaml")) =
      (fs.makedir cf).readFile (path_join cf (c ++ ".yaml"))
  · rw [hch, readFile_makedir]
  · obtain ⟨X, hX, hslash⟩ := hfold dict (fs.makedir cf) fs' h _ hch
    exfalso
    have hdata : (c ++ ".yaml").data = X.data := by
      have h1 : (cf ++ "/" ++ (c ++ ".yaml")).data = (cf ++ "/" ++ X).data := by
        rw [← path_join, ← path_join, ← hX]
      simp only [String.data_append] at h1
      exact List.append_cancel_left h1
    rw [← hdata] at hslash
    have hin : '/' ∈ c.data := by
      simpa [String.data_append] using hslash
    exact hc '/' hin rfl

theorem resume_run_preserves_category_files_witness :
    save_config_files "cfg"
        [("x/general.yaml", .cons "lr" (.scalar "0.01") .nil)] true false [5]
        ⟨["cfg"], [("cfg/general.yaml", [.cons "lr" (.scalar "0.1") .nil])]⟩ =
      .ok ⟨["cfg", "cfg/resume_training_config_diffs_5"],
        [("cfg/general.yaml", [.cons "lr" (.scalar "0.1") .nil]),
         ("cfg/resume_training_config_diffs_5/general.yaml",
          [.cons "lr" (.scalar "0.01") .nil])]⟩ ∧
    (⟨["cfg", "cfg/resume_training_config_diffs_5"],
        [("cfg/general.yaml", [.cons "lr" (.scalar "0.1") .nil]),
         ("cfg/resume_training_config_diffs_5/general.yaml",
          [.cons "lr" (.scalar "0.01") .nil])]⟩ : FS).readFile
        (path_join "cfg" ("general" ++ ".yaml")) =
      (⟨["cfg"], [("cfg/general.yaml", [.cons "lr" (.scalar "0.1") .nil])]⟩ : FS).readFile
        (path_join "cfg" ("general" ++ ".yaml")) := by
  refine ⟨rfl, ?_⟩
  exact resume_run_preserves_category_files "cfg" false [5]
    [("x/general.yaml", .cons "lr" (.scalar "0.01") .nil)]
    ⟨["cfg"], [("cfg/general.yaml", [.cons "lr" (.scalar "0.1") .nil])]⟩
    ⟨["cfg", "cfg/resume_training_config_diffs_5"],
      [("cfg/general.yaml", [.cons "lr" (.scalar "0.1") .nil]),
       ("cfg/resume_training_config_diffs_5/general.yaml",
        [.cons "lr" (.scalar "0.01") .nil])]⟩
    rfl "general" (by decide)

/-! ## Claim C2: resume-diff folder discovery -/

theorem pySplitChar_append_sep (sep : Char) :
    ∀ l : List Char, sep ∉ l → pySplitChar sep (l ++ [sep]) = [l, []]
| [], _ => by simp [pySplitChar]
| c :: rest, h => by
  have hc : ¬ (c = sep) := fun he => h (he ▸ List.mem_cons_self c rest)
  have hrest : sep ∉ rest := fun hm => h (List.mem_cons_of_mem c hm)
  rw [List.cons_append, pySplitChar]
  simp only [pySplitChar_append_sep sep rest hrest, if_neg hc]

theorem mem_insertSorted (x p : String) :
    ∀ l : List String, p ∈ insertSorted x l ↔ p = x ∨ p ∈ l
| [] => by simp [insertSorted]
| y :: rest => by
  rw [insertSorted]
  split
  · simp
  · rw [List.mem_cons, List.mem_cons, mem_insertSorted x p rest]
    tauto

theorem mem_sortStrings (p : String) (l : List String) :
    p ∈ sortStrings l ↔ p ∈ l := by
  induction l with
  | nil => simp [sortStrings]
  | cons x rest ih =>
    rw [sortStrings, List.foldr_cons, mem_insertSorted]
    rw [sortStrings] at ih
    rw [ih, List.mem_cons]

theorem star_match_empty_suf (pre p : List Char) :
    star_match pre [] p = true ↔ ∃ t, p = pre ++ t ∧ ∀ c ∈ t, c ≠ '/' := by
  rw [star_match]
  simp only [Bool.and_eq_true, List.all_eq_true, decide_eq_true_eq]
  constructor
  · rintro ⟨⟨⟨hpre, -⟩, -⟩, hall⟩
    obtain ⟨t, rfl⟩ := List.isPrefixOf_iff_prefix.mp hpre
    refine ⟨t, rfl, fun c hc => ?_⟩
    have := hall c ?_
    · simpa using this
    · rw [List.drop_left]
      have hlen : (pre ++ t).length - pre.length - ([] : List Char).length
          = t.length := by
        simp
      rw [hlen, List.take_length]
      exact hc
  · rintro ⟨t, rfl, hall⟩
    refine ⟨⟨⟨List.isPrefixOf_iff_prefix.mpr ⟨t, rfl⟩, ?_⟩, by simp⟩, ?_⟩
    · simp [List.isSuffixOf]
    · intro c hc
      rw [List.drop_left] at hc
      have hlen : (pre ++ t).length - pre.length - ([] : List Char).length
          = t.length := by
        simp
      rw [hlen, List.take_length] at hc
      simpa using hall c hc

theorem pyReplace_append_pat (pat repl : List Char) (hne : pat ≠ []) :
    ∀ rest : List Char, pyReplace pat repl (pat ++ rest) = repl ++ pyReplace pat repl rest := by
  intro rest
  cases hp : pat with
  | nil => exact absurd hp hne
  | cons c0 ptl =>
    rw [List.cons_append, pyReplace]
    rw [dif_pos ⟨List.isPrefixOf_iff_prefix.mpr ⟨rest, by rw [← List.cons_append]⟩,
      by simp⟩]
    have hdrop : ((c0 :: ptl) ++ rest).drop (c0 :: ptl).length = rest :=
      List.drop_left _ _
    rw [← List.cons_append, hdrop]

theorem pyReplace_of_not_mem (pat repl : List Char) (c0 : Char)
    (hc0 : c0 ∈ pat) : ∀ l : List Char, c0 ∉ l → pyReplace pat repl l = l
| [], _ => by rw [pyReplace]
| c :: rest, h => by
  rw [pyReplace]
  have hnp : ¬ (pat.isPrefixOf (c :: rest) ∧ pat ≠ []) := by
    rintro ⟨hpre, -⟩
    exact h ((List.isPrefixOf_iff_prefix.mp hpre).subset hc0)
  rw [dif_neg hnp]
  have hrest : c0 ∉ rest := fun hm => h (List.mem_cons_of_mem c hm)
  rw [pyReplace_of_not_mem pat repl c0 hc0 rest hrest]

theorem mapM_parse_map_mk (l : List (List Char)) :
    (l.map String.mk).mapM (fun s => parse_nat_digits s.data) =
      l.mapM parse_nat_digits := by
  induction l with
  | nil => rfl
  | cons x rest ih =>
    rw [List.map_cons, List.mapM_cons, List.mapM_cons, ih]

theorem assocSet_of_fresh {β : Type} (k : String) (v : β) :
    ∀ acc : List (String × β), (∀ e ∈ acc, k ≠ e.1) →
      assocSet acc k v = acc ++ [(k, v)]
| [], _ => rfl
| e :: rest, h => by
  rw [assocSet, if_neg (fun he => h e (List.mem_cons_self e rest) he.symm),
    assocSet_of_fresh k v rest (fun e2 h2 => h e2 (List.mem_cons_of_mem e h2)),
    List.cons_append]

theorem foldl_assocSet_of_nodup {β : Type} :
    ∀ (l acc : List (String × β)),
      (∀ e ∈ l, ∀ e2 ∈ acc, e.1 ≠ e2.1) → (l.map Prod.fst).Nodup →
      l.foldl (fun a e => assocSet a e.1 e.2) acc = acc ++ l
| [], acc, _, _ => by simp
| e :: rest, acc, hdisj, hnd => by
  rw [List.foldl_cons,
    assocSet_of_fresh e.1 e.2 acc (fun e2 h2 => hdisj e (List.mem_cons_self e rest) e2 h2)]
  rw [List.map_cons] at hnd
  have hnd2 := List.nodup_cons.mp hnd
  rw [foldl_assocSet_of_nodup rest (acc ++ [(e.1, e.2)]) ?_ hnd2.2]
  · simp
  · intro e2 h2 e3 h3
    rcases List.mem_append.mp h3 with h3 | h3
    · exact hdisj e2 (List.mem_cons_of_mem e h2) e3 h3
    · obtain rfl : e3 = (e.1, e.2) := by simpa using h3
      intro he
      exact hnd2.1 (he ▸ List.mem_map_of_mem Prod.fst h2)

theorem buildZipDict_of_nodup (names : List String) (ints : List Nat)
    (hnd : names.Nodup) : buildZipDict names ints = names.zip ints := by
  rw [buildZipDict]
  have hkeys : ((names.zip ints).map Prod.fst).Nodup := by
    induction names generalizing ints with
    | nil => simp
    | cons nm rest ih =>
      cases ints with
      | nil => simp
      | cons i irest =>
        rw [List.zip_cons_cons, List.map_cons, List.nodup_cons]
        have hnd2 := List.nodup_cons.mp hnd
        refine ⟨fun hm => ?_, ih irest hnd2.2⟩
        obtain ⟨⟨a, b⟩, hab, hfst⟩ := List.mem_map.mp hm
        simp only at hfst
        subst hfst
        exact hnd2.1 (List.of_mem_zip hab).1
  rw [foldl_assocSet_of_nodup (names.zip ints) [] (by simp) hkeys]
  simp

theorem string_data_mk (l : List Char) : (String.mk l).data = l := rfl

theorem glob1_star (fs : FS) (base : String) (hstar : '*' ∉ base.data) :
    fs.glob1 (base ++ "*") =
      fs.globEntries.filter (fun p => star_match base.data [] p.data) := by
  rw [FS.glob1]
  have hsplit : pySplit '*' (base ++ "*") = [base, ""] := by
    rw [pySplit]
    have hdata : (base ++ "*").data = base.data ++ ['*'] := by
      rw [String.data_append]
    rw [hdata, pySplitChar_append_sep '*' base.data hstar]
    rfl
  rw [hsplit]

/-- C2: `get_all_resume_training_config_diffs` sorts and maps over
exactly the entries directly under the config folder whose name starts
with `resume_training_config_diffs_`; each one's trailing
underscore-separated integers are parsed and zipped positionally with
the sub-experiment names, which are the cartesian product (in product
order) of the supplied prefixes with `range(num_training_sets)` when
`num_training_sets > 1`, and the single supplied name as-is when it is
1.  (The config folder itself may not contain a glob wildcard.) -/
theorem resume_diff_discovery (fs : FS) (cf : String) (prefixes : List String)
    (n : Nat) (hstar : '*' ∉ cf.data) :
    (get_all_resume_training_config_diffs fs cf prefixes n =
      (sortStrings (fs.glob1
          (path_join cf "resume_training_config_diffs_" ++ "*"))).mapM
        (parse_diff_folder (path_join cf "resume_training_config_diffs_")
          (split_scheme_names_of prefixes n))) ∧
    (∀ p : String,
      p ∈ sortStrings (fs.glob1
          (path_join cf "resume_training_config_diffs_" ++ "*")) ↔
        (p ∈ fs.globEntries ∧ ∃ t : List Char,
          p.data = (path_join cf "resume_training_config_diffs_").data ++ t ∧
          ∀ c ∈ t, c ≠ '/')) ∧
    (∀ (k : String) (t : List Char) (ints : List Nat),
      k.data = (path_join cf "resume_training_config_diffs_").data ++ t →
      (∀ c ∈ t, c ≠ '/') →
      (pySplitChar '_' t).mapM parse_nat_digits = some ints →
      parse_diff_folder (path_join cf "resume_training_config_diffs_")
          (split_scheme_names_of prefixes n) k =
        .ok (k, buildZipDict (split_scheme_names_of prefixes n) ints)) ∧
    (∀ (names : List String) (ints : List Nat), names.Nodup →
      buildZipDict names ints = names.zip ints) ∧
    (n > 1 → split_scheme_names_of prefixes n =
      (prefixes.map (fun p =>
        (List.range n).map (fun i => p ++ Nat.repr i))).flatten) ∧
    (∀ name : String, split_scheme_names_of [name] 1 = [name]) := by
  have hslashfbp : '/' ∈ (path_join cf "resume_training_config_diffs_").data := by
    simp only [path_join, String.data_append]
    exact List.mem_append.mpr (Or.inl (List.mem_append.mpr (Or.inr (by decide))))
  have hstarfbp : '*' ∉ (path_join cf "resume_training_config_diffs_").data := by
    simp only [path_join, String.data_append]
    intro hm
    rcases List.mem_append.mp hm with hm | hm
    · rcases List.mem_append.mp hm with hm | hm
      · exact hstar hm
      · revert hm
        decide
    · revert hm
      decide
  refine ⟨rfl, fun p => ?_, fun k t ints hk hslash hparse => ?_,
    buildZipDict_of_nodup, fun h => ?_, fun name => ?_⟩
  · rw [mem_sortStrings, glob1_star fs _ hstarfbp, List.mem_filter]
    constructor
    · rintro ⟨hmem, hsm⟩
      exact ⟨hmem, (star_match_empty_suf _ _).mp hsm⟩
    · rintro ⟨hmem, ht⟩
      exact ⟨hmem, (star_match_empty_suf _ _).mpr ht⟩
  · have hne : (path_join cf "resume_training_config_diffs_").data ≠ [] := by
      intro he
      rw [he] at hslashfbp
      cases hslashfbp
    have hnott : '/' ∉ t := fun hm => hslash '/' hm rfl
    have htail : pyReplace (path_join cf "resume_training_config_diffs_").data
        [] k.data = t := by
      rw [hk, pyReplace_append_pat _ _ hne t,
        pyReplace_of_not_mem _ _ '/' hslashfbp t hnott, List.nil_append]
    rw [parse_diff_folder, htail, pySplit, string_data_mk, mapM_parse_map_mk,
      hparse]
  · rw [split_scheme_names_of, if_pos h, product_scheme_names]
  · rw [split_scheme_names_of, if_neg (by omega)]

theorem resume_diff_discovery_witness :
    parse_diff_folder (path_join "cfg" "resume_training_config_diffs_")
        (split_scheme_names_of ["train"] 2)
        "cfg/resume_training_config_diffs_10_12" =
      .ok ("cfg/resume_training_config_diffs_10_12",
        [("train0", 10), ("train1", 12)]) := by
  have h := (resume_diff_discovery ⟨[], []⟩ "cfg" ["train"] 2 (by decide)).2.2.1
    "cfg/resume_training_config_diffs_10_12" "10_12".data [10, 12]
    (by decide) (by decide) (by decide)
  exact h.trans (congrArg Except.ok (by decide))

/-! ## Lemmas about the association-list helpers -/

theorem assocGet_assocSet_self {β : Type} (l : List (String × β)) (k : String) (v : β) :
    assocGet (assocSet l k v) k = some v := by
  induction l with
  | nil => simp [assocSet, assocGet]
  | cons e rest ih =>
    by_cases h : e.1 = k
    · simp [assocSet, assocGet, h]
    · simp only [assocSet, if_neg h]
      simpa [assocGet, List.find?, h] using ih

theorem assocGet_assocSet_ne {β : Type} (l : List (String × β)) (k key : String) (v : β)
    (h : key ≠ k) : assocGet (assocSet l k v) key = assocGet l key := by
  induction l with
  | nil => simp [assocSet, assocGet, List.find?, Ne.symm h]
  | cons e rest ih =>
    by_cases he : e.1 = k
    · subst he
      simp [assocSet, assocGet, List.find?, Ne.symm h]
    · simp only [assocSet, if_neg he]
      by_cases hk : e.1 = key
      · simp [assocGet, List.find?, hk]
      · simpa [assocGet, List.find?, hk] using ih

/-! ## Claim C6: the shared qualification rule of save/load/delete -/

theorem mem_operate_on_dict_of_models (input_dict : List (String × PyModule))
    (suffix : Option String) (folder k : String) (v : PyModule) (p : String) :
    (k, v, p) ∈ operate_on_dict_of_models input_dict suffix folder ↔
      ((k, v) ∈ input_dict ∧ operable k v = true ∧
        p = experiment_filename folder k suffix) := by
  induction input_dict with
  | nil => simp [operate_on_dict_of_models]
  | cons e rest ih =>
    obtain ⟨ek, ev⟩ := e
    by_cases hop : operable ek ev
    · simp only [operate_on_dict_of_models, if_pos hop, List.mem_cons, ih,
        Prod.mk.injEq, List.mem_cons]
      constructor
      · rintro (⟨hk, hv, hp⟩ | ⟨hmem, hq, hp⟩)
        · subst hk; subst hv; subst hp
          exact ⟨Or.inl ⟨rfl, rfl⟩, hop, rfl⟩
        · exact ⟨Or.inr hmem, hq, hp⟩
      · rintro ⟨⟨hk, hv⟩ | hmem, hq, hp⟩
        · subst hk; subst hv
          exact Or.inl ⟨rfl, rfl, hp⟩
        · exact Or.inr ⟨hmem, hq, hp⟩
    · simp only [operate_on_dict_of_models, if_neg hop, ih, List.mem_cons,
        Prod.mk.injEq]
      constructor
      · rintro ⟨hmem, hq, hp⟩
        exact ⟨Or.inr hmem, hq, hp⟩
      · rintro ⟨⟨hk, hv⟩ | hmem, hq, hp⟩
        · subst hk; subst hv
          exact absurd hq hop
        · exact ⟨hmem, hq, hp⟩

/-- C6: for every mapping of named objects, the save, load and delete
checkpoint operations act on an entry exactly when its name contains the
substring "optimizer" or its object exposes at least one parameter; all
other entries are skipped by all three. -/
theorem checkpoint_ops_qualification (input_dict : List (String × PyModule))
    (suffix : Option String) (folder device : String) :
    (∀ k v, CkptAction.saveA k v (experiment_filename folder k suffix) ∈
        save_dict_of_models input_dict suffix folder ↔
        ((k, v) ∈ input_dict ∧ operable k v = true)) ∧
    (∀ k v, CkptAction.loadA k v (experiment_filename folder k suffix) device ∈
        load_dict_of_models input_dict suffix folder device ↔
        ((k, v) ∈ input_dict ∧ operable k v = true)) ∧
    (∀ p, CkptAction.deleteA p ∈ delete_dict_of_models input_dict suffix folder ↔
        (∃ k v, (k, v) ∈ input_dict ∧ operable k v = true ∧
          p = experiment_filename folder k suffix)) := by
  refine ⟨fun k v => ?_, fun k v => ?_, fun p => ?_⟩
  · simp only [save_dict_of_models, List.mem_map]
    constructor
    · rintro ⟨⟨k1, v1, p1⟩, hmem, heq⟩
      rw [CkptAction.saveA.injEq] at heq
      obtain ⟨h1, h2, h3⟩ := heq
      subst h1; subst h2
      obtain ⟨ha, hb, _⟩ := (mem_operate_on_dict_of_models ..).mp hmem
      exact ⟨ha, hb⟩
    · rintro ⟨hmem, hq⟩
      exact ⟨(k, v, experiment_filename folder k suffix),
        (mem_operate_on_dict_of_models ..).mpr ⟨hmem, hq, rfl⟩, rfl⟩
  · simp only [load_dict_of_models, List.mem_map]
    constructor
    · rintro ⟨⟨k1, v1, p1⟩, hmem, heq⟩
      rw [CkptAction.loadA.injEq] at heq
      obtain ⟨h1, h2, h3, _⟩ := heq
      subst h1; subst h2
      obtain ⟨ha, hb, _⟩ := (mem_operate_on_dict_of_models ..).mp hmem
      exact ⟨ha, hb⟩
    · rintro ⟨hmem, hq⟩
      exact ⟨(k, v, experiment_filename folder k suffix),
        (mem_operate_on_dict_of_models ..).mpr ⟨hmem, hq, rfl⟩, rfl⟩
  · simp only [delete_dict_of_models, List.mem_map]
    constructor
    · rintro ⟨⟨k1, v1, p1⟩, hmem, heq⟩
      rw [CkptAction.deleteA.injEq] at heq
      obtain ⟨ha, hb, hp⟩ := (mem_operate_on_dict_of_models ..).mp hmem
      exact ⟨k1, v1, ha, hb, heq ▸ hp⟩
    · rintro ⟨k, v, hmem, hq, hp⟩
      exact ⟨(k, v, experiment_filename folder k suffix),
        (mem_operate_on_dict_of_models ..).mpr ⟨hmem, hq, rfl⟩, hp ▸ rfl⟩

theorem checkpoint_ops_qualification_witness :
    CkptAction.saveA "trunk_optimizer" ⟨[]⟩
        (experiment_filename "ckpt" "trunk_optimizer" (some "5")) ∈
      save_dict_of_models [("trunk_optimizer", ⟨[]⟩), ("lossA", ⟨[]⟩)]
        (some "5") "ckpt" :=
  ((checkpoint_ops_qualification [("trunk_optimizer", ⟨[]⟩), ("lossA", ⟨[]⟩)]
    (some "5") "ckpt" "cuda").1 "trunk_optimizer" ⟨[]⟩).mpr
    ⟨by decide, by decide⟩

/-! ## Claim C7: single-fallback semantics of checkpoint save and load -/

/-- C7: checkpoint save tries the host-memory path first and on any
failure falls back exactly once to serializing as-is; checkpoint load
tries direct installation first and on any failure retries exactly once
with every key's fixed 7-character prefix stripped; a failure of either
fallback propagates. -/
theorem checkpoint_fallback_once (s : StateDict) (e : String)
    (plain : Except String StateDict) (installs : StateDict → Bool)
    (stored : StateDict) :
    (save_model_or_optimizer (.ok s) plain = .ok s) ∧
    (save_model_or_optimizer (.error e) plain = plain) ∧
    (installs stored = true → load_model installs stored = .ok stored) ∧
    (installs stored = false → installs (strip_module_pre stored) = true →
      load_model installs stored = .ok (strip_module_pre stored)) ∧
    (installs stored = false → installs (strip_module_pre stored) = false →
      load_model installs stored = .error "load_state_dict failed") := by
  refine ⟨rfl, rfl, fun h1 => ?_, fun h1 h2 => ?_, fun h1 h2 => ?_⟩
  · simp [load_model, h1]
  · simp [load_model, h1, h2]
  · simp [load_model, h1, h2]

theorem checkpoint_fallback_once_witness :
    load_model (fun sd => decide (sd = ([] : StateDict))) [("module.w", "t")] =
        .error "load_state_dict failed" ∧
      save_model_or_optimizer (.error "cuda") (.ok ([("w", "t")] : StateDict)) =
        .ok [("w", "t")] := by
  refine ⟨?_, ?_⟩
  · exact (checkpoint_fallback_once [] "cuda" (.ok []) (fun sd => decide (sd = []))
      [("module.w", "t")]).2.2.2.2 (by decide) (by decide)
  · exact (checkpoint_fallback_once [("w", "t")] "cuda" (.ok [("w", "t")])
      (fun _ => true) []).2.1

/-! ## Claim C9: `latest_version` raises when only "best" checkpoints match -/

/-- C9: whenever the glob matches at least one path but every match ends
in "best.pth", `latest_version` raises `ValueError` (the empty-result
guard precedes the "best" exclusion) instead of returning 0 or `None`. -/
theorem latest_version_all_best (fs : FS) (folder s : String)
    (hne : fs.glob1 (path_join folder s) ≠ [])
    (hall : ∀ p ∈ fs.glob1 (path_join folder s), pyEndsWith p "best.pth" = true) :
    latest_version fs folder s = .error "ValueError: max() arg is an empty sequence" := by
  unfold latest_version
  rw [if_neg hne]
  have hkept : (fs.glob1 (path_join folder s)).filter
      (fun x => !(pyEndsWith x "best.pth")) = [] := by
    rw [List.filter_eq_nil_iff]
    intro a ha
    simp [hall a ha]
  rw [hkept]
  rfl

theorem latest_version_all_best_witness :
    latest_version ⟨[], [("m/trunk_best.pth", [])]⟩ "m" "trunk_*.pth" =
      .error "ValueError: max() arg is an empty sequence" :=
  latest_version_all_best ⟨[], [("m/trunk_best.pth", [])]⟩ "m" "trunk_*.pth"
    (by decide) (by decide)

/-! ## Claim C8: trainer-kwargs assembly for the augmentation mode -/

/-- C8: the assembled trainer kwargs bind `transforms` to the ordered
list of values of the transform keys starting with "augmentation",
`sampler` to `None` and `set_min_label_to_zero` to `False`, and leave the
value of every other key exactly as in the base builder's default set. -/
theorem trainer_kwargs_assembly {T : Type} (base : List (String × KwVal T))
    (transforms : List (String × T)) :
    assocGet (get_trainer_kwargs base transforms) "transforms" =
      some (.transformList
        ((transforms.filter (fun e => pyStartsWith e.1 "augmentation")).map Prod.snd)) ∧
    assocGet (get_trainer_kwargs base transforms) "sampler" = some .pyNone ∧
    assocGet (get_trainer_kwargs base transforms) "set_min_label_to_zero" =
      some (.pyBool false) ∧
    ∀ key, key ≠ "transforms" → key ≠ "sampler" → key ≠ "set_min_label_to_zero" →
      assocGet (get_trainer_kwargs base transforms) key = assocGet base key := by
  unfold get_trainer_kwargs
  refine ⟨?_, ?_, ?_, ?_⟩
  · rw [assocGet_assocSet_ne _ _ _ _ (by decide), assocGet_assocSet_ne _ _ _ _ (by decide),
      assocGet_assocSet_self]
  · rw [assocGet_assocSet_ne _ _ _ _ (by decide), assocGet_assocSet_self]
  · rw [assocGet_assocSet_self]
  · intro key h1 h2 h3
    rw [assocGet_assocSet_ne _ _ _ _ h3, assocGet_assocSet_ne _ _ _ _ h2,
      assocGet_assocSet_ne _ _ _ _ h1]

theorem trainer_kwargs_assembly_witness :
    assocGet (get_trainer_kwargs (T := Nat)
        [("dataset", .other "d"), ("sampler", .other "s")]
        [("augmentation_flip", 1), ("eval_resize", 3), ("augmentation_crop", 2)])
      "dataset" = some (.other "d") :=
  (trainer_kwargs_assembly [("dataset", .other "d"), ("sampler", .other "s")]
    [("augmentation_flip", 1), ("eval_resize", 3), ("augmentation_crop", 2)]).2.2.2
    "dataset" (by decide) (by decide) (by decide)

end PB
